import Mathlib

/-!
Verification development for the PyXRF spectral-decomposition core
(`pyxrf/model/fit_spectrum.py` and `pyxrf/model/utils.py`).

Numeric values are modelled by exact rationals (`ℚ`): the Python code works
on `float` numpy arrays, and every property treated here (shapes, branch
selection, non-negativity, trace lengths, identity of returned arrays,
exact per-pixel plumbing) is about the algebraic structure of the
computation, which exact arithmetic reproduces faithfully.

2D numpy arrays are modelled as `List (List ℚ)` (list of rows) and 3D
spectral cubes as `List (List (List ℚ))` (rows of columns of spectra).
`None` arguments are modelled with `Option`, and functions that can raise
return `Except String`.
-/

namespace PyXRF

abbrev Vec := List ℚ
abbrev Mat := List (List ℚ)
abbrev Cube := List (List (List ℚ))

/-! ## Generic array helpers (numpy primitives used by the embedded code) -/

/-- Shape of a 2D array as the list of its row lengths.  Two rectangular
numpy arrays have equal `.shape` exactly when these lists are equal. -/
def matShape (m : Mat) : List ℕ := m.map List.length

/-- Total number of elements of a 2D array (`ndarray.size`). -/
def matSize (m : Mat) : ℕ := (m.map List.length).sum

/-- Number of nonzero elements (`np.count_nonzero`). -/
def countNonzero (m : Mat) : ℕ :=
  (m.map (fun r => r.countP (fun x => decide (x ≠ 0)))).sum

/-- Sum of the nonzero elements of a 2D array (`np.sum(scaler[scaler != 0])`). -/
def sumNonzero (m : Mat) : ℚ :=
  (m.map (fun r => ((r.filter (fun x => decide (x ≠ 0))).sum))).sum

/-- `np.mean(scaler[scaler != 0])`: mean of the nonzero elements. -/
def meanNonzero (m : Mat) : ℚ := sumNonzero m / (countNonzero m : ℚ)

/-- Elementwise division of two same-shaped 2D arrays (`data_in / scaler`). -/
def matDiv (a b : Mat) : Mat :=
  List.zipWith (fun ra rb => List.zipWith (fun x y => x / y) ra rb) a b

/-- Elementwise combination of two same-shaped 2D arrays. -/
def matZip (f : ℚ → ℚ → ℚ) (a b : Mat) : Mat :=
  List.zipWith (fun ra rb => List.zipWith f ra rb) a b

/-- Elementwise map over a 2D array. -/
def matMap (f : ℚ → ℚ) (m : Mat) : Mat := m.map (fun r => r.map f)

/-- Division of every element of a 2D array by a scalar (`matv /= k`). -/
def matDivScalar (m : Mat) (k : ℚ) : Mat := matMap (fun x => x / k) m

/-- Multiplication of every element of a 2D array by a scalar. -/
def matScale (c : ℚ) (m : Mat) : Mat := matMap (fun x => c * x) m

/-- Constant 2D array (`np.ones` / `np.zeros`). -/
def matConst (r c : ℕ) (v : ℚ) : Mat := List.replicate r (List.replicate c v)

/-- `np.eye(n) * v`. -/
def eyeScaled (n : ℕ) (v : ℚ) : Mat :=
  (List.range n).map (fun i => (List.range n).map (fun j => if j = i then v else 0))

/-- Matrix transpose (`np.transpose`), for a rectangular 2D array. -/
def matT (m : Mat) : Mat :=
  (List.range ((m.headD []).length)).map (fun j => m.map (fun r => r.getD j 0))

/-- Dot product of two vectors. -/
def dotVec (u v : Vec) : ℚ := (List.zipWith (fun x y => x * y) u v).sum

/-- Matrix product (`np.matmul`) of rectangular 2D arrays. -/
def matMul (a b : Mat) : Mat :=
  a.map (fun ra => (matT b).map (fun cb => dotVec ra cb))

/-- Squared Frobenius norm: the square of `np.linalg.norm`. -/
def normSqM (m : Mat) : ℚ := (m.map (fun r => (r.map (fun x => x * x)).sum)).sum

/-- Elementwise addition of two vectors of equal length. -/
def vecAdd (a b : Vec) : Vec := List.zipWith (fun x y => x + y) a b

/-- Python `int()` conversion of a rational: truncation toward zero. -/
def pyint (q : ℚ) : ℤ := if 0 ≤ q then ⌊q⌋ else ⌈q⌉

/-- Python slice `l[a : b]` with integer (possibly negative) bounds. -/
def pySlice (l : Vec) (a b : ℤ) : Vec :=
  let n : ℤ := l.length
  let norm : ℤ → ℤ := fun i => if i < 0 then max 0 (n + i) else min n i
  ((l.take (norm b).toNat).drop (norm a).toNat)

/-- Matrix inverse (`np.linalg.inv`) by Gauss-Jordan elimination on the
matrix augmented with the identity.  Produces the true inverse for every
invertible matrix; the source's behavior on singular input (a LinAlgError)
is never reached by the embedded callers under their preconditions. -/
def elimStep (rows : List Vec) (k : ℕ) : List Vec :=
  let n := rows.length
  let piv? := (List.range n).find?
    (fun i => decide (k ≤ i) && decide ((rows.getD i []).getD k 0 ≠ 0))
  match piv? with
  | none => rows
  | some p =>
    let swapped := (List.range n).map (fun i =>
      if i = k then rows.getD p [] else if i = p then rows.getD k [] else rows.getD i [])
    let pr := swapped.getD k []
    let pv := pr.getD k 0
    let prn := pr.map (fun x => x / pv)
    (List.range n).map (fun i =>
      if i = k then prn
      else
        let ri := swapped.getD i []
        let f := ri.getD k 0
        List.zipWith (fun a b => a - f * b) ri prn)

/-- See `elimStep`. -/
def matInv (m : Mat) : Mat :=
  let n := m.length
  let aug := (List.range n).map (fun i =>
    (m.getD i []) ++ (List.range n).map (fun j => if j = i then (1 : ℚ) else 0))
  let red := (List.range n).foldl elimStep aug
  red.map (fun r => r.drop n)

/-! ## `pyxrf.model.utils.normalize_data_by_scaler` -/

/-- The clamping applied by `normalize_data_by_scaler` to the nonzero mean:
if `|s_mean| < 1e-10` it is replaced by `1e-10` when `np.sign(s_mean) >= 0`
and by `-1e-10` otherwise. -/
def clampMean (s_mean : ℚ) : ℚ :=
  if |s_mean| < 1 / 10 ^ 10 then
    (if 0 ≤ s_mean then 1 / 10 ^ 10 else -(1 / 10 ^ 10))
  else s_mean

/-- `scaler.copy()` followed by `scaler[scaler == 0.0] = s_mean`. -/
def replaceZeros (m : Mat) (s_mean : ℚ) : Mat :=
  m.map (fun r => r.map (fun x => if x = 0 then s_mean else x))

/-- The `data_name in name_not_scalable` test of `normalize_data_by_scaler`:
true only when both the name and the list are present and the name occurs
in the list (the source sets `do_scaling = True` when either is `None`). -/
def nameExcluded (data_name : Option String)
    (name_not_scalable : Option (List String)) : Bool :=
  match data_name, name_not_scalable with
  | some nm, some l => l.contains nm
  | _, _ => false

/-- Embedding of `pyxrf.model.utils.normalize_data_by_scaler`.

Returning the argument value itself models the Python contract of returning
the identical object reference (no copy) whenever scaling is skipped. -/
def normalize_data_by_scaler (data_in : Option Mat) (scaler : Option Mat)
    (data_name : Option String) (name_not_scalable : Option (List String)) :
    Option Mat :=
  match data_in, scaler with
  | none, _ => none
  | some _, none => data_in
  | some d, some s =>
    if matShape d ≠ matShape s then some d
    else
      -- do_scaling is set iff the data name is not excluded and the scaler
      -- has at least one nonzero element
      let n_nonzero := countNonzero s
      let do_scaling : Bool := !nameExcluded data_name name_not_scalable
                                 && decide (n_nonzero ≠ 0)
      if do_scaling then
        if matSize d ≠ n_nonzero then
          matDiv d (replaceZeros s (clampMean (meanNonzero s)))
        else
          matDiv d s
      else some d

/-! ## `pyxrf.model.utils.grid_interpolate` -/

/-- `np.median` of a 1D array: middle element of the sorted data, or the
mean of the two middle elements for even length. -/
def npMedian (l : Vec) : ℚ :=
  let s := l.mergeSort (fun a b => decide (a ≤ b))
  let n := l.length
  if n % 2 = 1 then s.getD (n / 2) 0
  else (s.getD (n / 2 - 1) 0 + s.getD (n / 2) 0) / 2

/-- `np.linspace`-style inclusive grid with `n` points (what
`np.mgrid[a : b : n*1j]` produces along one axis). -/
def linspace (a b : ℚ) (n : ℕ) : Vec :=
  (List.range n).map (fun k => a + (b - a) * k / ((n : ℚ) - 1))

/-- The `_get_range` helper nested in `grid_interpolate`: picks the columns
or the rows of the coordinate array depending on which direction shows the
larger change, and returns medians of the first and last of them. -/
def get_range (vv : Mat) : ℚ × ℚ :=
  let v00 := (vv.headD []).headD 0
  let v0l := ((vv.headD []).getLast?).getD 0
  let vl0 := ((vv.getLast?).getD []).headD 0
  if |v00 - v0l| > |v00 - vl0| then
    (npMedian (vv.map (fun r => r.headD 0)),
     npMedian (vv.map (fun r => (r.getLast?).getD 0)))
  else
    (npMedian (vv.headD []), npMedian ((vv.getLast?).getD []))

/-- The body of `grid_interpolate` after the argument checks.  The call to
`scipy.interpolate.griddata` (an external library collaborator) is
abstracted as the function argument `griddata`, which receives the
flattened coordinate pairs, the flattened data and the two uniform
coordinate grids. -/
def grid_interpolate_main
    (griddata : List (ℚ × ℚ) → Vec → Mat → Mat → Mat)
    (data : Option Mat) (xx yy : Mat) (xx_uniform yy_uniform : Option Mat) :
    Option Mat × Mat × Mat :=
  let ny := xx.length
  let nx := (xx.headD []).length
  if nx ≤ 1 ∨ ny ≤ 1 then
    -- single row or column scan: grid interpolation is skipped
    (data, xx, yy)
  else
    let xr := get_range xx
    let yr := get_range yy
    let xlin := linspace xr.1 xr.2 nx
    let ylin := linspace yr.1 yr.2 ny
    let xx_u := xx_uniform.getD ((List.range ny).map (fun _ => xlin))
    let yy_u := yy_uniform.getD
      ((List.range ny).map (fun i => (List.range nx).map (fun _ => ylin.getD i 0)))
    let xxyy := (xx.flatten).zip (yy.flatten)
    match data with
    | some d => (some (griddata xxyy d.flatten xx_u yy_u), xx_u, yy_u)
    | none => (none, xx_u, yy_u)

/-- Embedding of `pyxrf.model.utils.grid_interpolate`: the argument checks
(`raise ValueError`) followed by `grid_interpolate_main`.

The source's check for `yy_uniform` reads `xx_uniform.shape` (a copy-paste
slip); when `yy_uniform` is given while `xx_uniform` is `None` the Python
raises an `AttributeError`, modelled here by an error return. -/
def grid_interpolate
    (griddata : List (ℚ × ℚ) → Vec → Mat → Mat → Mat)
    (data : Option Mat) (xx yy : Mat) (xx_uniform yy_uniform : Option Mat) :
    Except String (Option Mat × Mat × Mat) :=
  let bad_data : Bool :=
    match data with
    | some d => decide (matShape d ≠ matShape xx)
    | none => false
  if bad_data then
    .error "Shapes of data and coordinate arrays do not match."
  else if matShape xx ≠ matShape yy then
    .error "Shapes of coordinate arrays xx and yy do not match."
  else
    let bad_xxu : Bool :=
      match xx_uniform with
      | some xu => decide (matShape xu ≠ matShape xx)
      | none => false
    if bad_xxu then
      .error "Shapes of data and array of uniform coordinates xx_uniform do not match."
    else
      match yy_uniform with
      | some _ =>
        match xx_uniform with
        | none => .error "AttributeError: NoneType object has no attribute shape"
        | some xu =>
          if matShape xu ≠ matShape xx then
            .error "Shapes of data and array of uniform coordinates yy_uniform do not match."
          else
            .ok (grid_interpolate_main griddata data xx yy xx_uniform yy_uniform)
      | none =>
        .ok (grid_interpolate_main griddata data xx yy xx_uniform yy_uniform)

/-! ## `pyxrf.model.utils.fitting_admm` -/

/-- Diagnostics returned by `fitting_admm`.

Trace entries are recorded as the SQUARES of the quantities the source
stores (`np.linalg.norm` is irrational in general, so the square is the
exact rational representative); lengths and positions of entries coincide
with the source.  When `‖w_updated‖ = 0` numpy records a nan/inf ratio; the
rational convention `a / 0 = 0` stands in for that value. -/
structure AdmmOut where
  w : Mat
  convergence : List ℚ
  feasibility : List ℚ
  deriving DecidableEq

/-- The loop break test `conv < epsilon` of `fitting_admm`, decided exactly
on squared norms: with `a = ‖w_updated - w‖²` and `b = ‖w_updated‖²`,
`‖w_updated - w‖ / ‖w_updated‖ < epsilon` holds iff
`0 < b ∧ 0 < epsilon ∧ a < epsilon² * b` (a nan or inf ratio arising from
`b = 0` compares false in numpy, matching the `0 < b` conjunct). -/
def convBreak (a b epsilon : ℚ) : Bool :=
  decide (0 < b) && decide (0 < epsilon) && decide (a < epsilon ^ 2 * b)

/-- The iteration loop of `fitting_admm`.  Arguments: remaining fuel
(`maxiter - i`), the running index `i`, and the state `w`, `u`.  Returns
the final `w`, the per-iteration recorded convergence and feasibility
entries (one per executed iteration, in order), and the final `n_iter`
value — which the source leaves at `0` unless the loop breaks early. -/
def admmIter (m1 z : Mat) (rate epsilon : ℚ) :
    ℕ → ℕ → Mat → Mat → Mat × List ℚ × List ℚ × ℕ
  | 0, _, w, _ => (w, [], [], 0)
  | fuel + 1, i, w, u =>
    let m2 := matZip (fun x y => x + y) z (matScale rate (matZip (fun x y => x - y) w u))
    let x := matMul m1 m2
    let w_updated := matMap (fun v => max 0 v) (matZip (fun a b => a + b) x u)
    let u' := matZip (fun a b => a - b) (matZip (fun a b => a + b) u x) w_updated
    let a := normSqM (matZip (fun p q => p - q) w_updated w)
    let b := normSqM w_updated
    let convSq := a / b
    let feasSq := normSqM (matZip (fun p q => p - q) x w_updated)
    if convBreak a b epsilon then
      (w_updated, [convSq], [feasSq], i + 1)
    else
      let rest := admmIter m1 z rate epsilon fuel (i + 1) w_updated u'
      (rest.1, convSq :: rest.2.1, feasSq :: rest.2.2.1, rest.2.2.2)

/-- Embedding of `pyxrf.model.utils.fitting_admm` for 2D `data`
(`n_pts × n_pixels`).  The source reshapes 1D and ≥3D inputs to exactly
this form before the iteration and back afterwards, so the 2D form is the
general case.  Failed assertions are modelled by `Except.error`. -/
def fitting_admm (data ref_spectra : Mat) (rate : ℚ) (maxiter : ℤ)
    (epsilon : ℚ) : Except String AdmmOut :=
  -- assert ref_spectra.ndim == 2 is structural in the `Mat` type
  let n_pts := data.length
  let n_pts_2 := ref_spectra.length
  let n_refs := (ref_spectra.headD []).length
  if n_pts ≠ n_pts_2 then
    .error "ADMM fitting: number of spectrum points in data and references do not match."
  else if ¬ (0 < rate) then
    .error "ADMM fitting: parameter rate is zero or negative"
  else if ¬ (0 < maxiter) then
    .error "ADMM fitting: parameter maxiter is zero or negative"
  else if ¬ (0 < epsilon) then
    .error "ADMM fitting: parameter epsilon is zero or negative"
  else
    let n_pixels := (data.headD []).length
    let y := data
    let At := matT ref_spectra
    let z := matMul At y
    let c := matMul At ref_spectra
    let w := matConst n_refs n_pixels 1
    let u := matConst n_refs n_pixels 0
    let dg := eyeScaled n_refs rate
    let m1 := matInv (matZip (fun p q => p + q) c dg)
    let r := admmIter m1 z rate epsilon maxiter.toNat 0 w u
    .ok { w := r.1,
          convergence := r.2.1.take r.2.2.2,
          feasibility := r.2.2.1.take r.2.2.2 }

/-! ## `pyxrf.model.fit_spectrum`: cube preprocessing -/

/-- Adding a constant to every count of a cube (`exp_data += raise_bg`). -/
def addConstCube (c : Cube) (v : ℚ) : Cube :=
  c.map (fun row => row.map (fun spec => spec.map (fun x => x + v)))

/-- Sum of the spectra of one `bin_size × bin_size` pixel block
(`np.sum(data[i*b : i*b+b, j*b : j*b+b, :], axis=(0, 1))`). -/
def blockSum (data : Cube) (i j bin_size nch : ℕ) : Vec :=
  let rows := (data.drop (i * bin_size)).take bin_size
  let cells := rows.map (fun row => (row.drop (j * bin_size)).take bin_size)
  (cells.flatten).foldl vecAdd (List.replicate nch 0)

/-- Embedding of `bin_data_spacial` for a 3D cube (the 2D branch of the
source is never used by the fitting controller).  The output spatial shape
is the truncating division of the input shape by `bin_size`, matching the
source's policy of truncating a non-divisible remainder. -/
def bin_data_spacial (data : Cube) (bin_size : ℕ) : Cube :=
  if bin_size ≤ 1 then data
  else
    let d0 := data.length / bin_size
    let d1 := (data.headD []).length / bin_size
    let nch := ((data.headD []).headD []).length
    (List.range d0).map (fun i =>
      (List.range d1).map (fun j => blockSum data i j bin_size nch))

/-- Element `k` of a vector extended with zeros on both sides (used to
express `np.convolve(·, ·, mode="same")`). -/
def convPad (v : Vec) (k : ℤ) : ℚ :=
  if 0 ≤ k ∧ k < (v.length : ℤ) then v.getD k.toNat 0 else 0

/-- `np.convolve(v, conv_f, mode="same")` for the two uniform kernels the
source builds (`[1/2, 1/2]` for width 2 and `[1/3, 1/3, 1/3]` for width 3).
Other widths leave `conv_f` undefined in the source (a NameError) and are
never requested by the controller; they are modelled as the identity. -/
def convolveSame (v : Vec) (width : ℕ) : Vec :=
  if width = 2 then
    (List.range v.length).map (fun k => (convPad v k + convPad v (k - 1)) / 2)
  else if width = 3 then
    (List.range v.length).map
      (fun k => (convPad v (k + 1) + convPad v k + convPad v (k - 1)) / 3)
  else v

/-- Embedding of `conv_expdata_energy`: convolution along the energy axis
of every pixel's spectrum. -/
def conv_expdata_energy (data : Cube) (width : ℕ) : Cube :=
  data.map (fun row => row.map (fun spec => convolveSame spec width))

/-- Fitting parameters consumed by the pixel-fitting controller: the energy
calibration terms and the energy window from `non_fitting_values`. -/
structure FitParam where
  e_offset : ℚ
  e_linear : ℚ
  energy_bound_low : ℚ
  energy_bound_high : ℚ

/-- Result of `get_cutted_spectrum_in3D`. -/
structure CutResult where
  x : List ℤ
  data : Cube
  fit_range : ℤ × ℤ

/-- Embedding of `get_cutted_spectrum_in3D`: converts the keV bounds to
channel bounds with `int()` truncation and cuts the cube along the energy
axis (`data[:, :, lowv : highv+1]`).  The `x` axis is skbeam's
`trim(arange(n), ·, lowv, highv)`: the channels `c` of `0..n-1` with
`lowv ≤ c ≤ highv`.  Note `data = np.array(exp_data)` copies the cube
before slicing, so the caller's array is never aliased. -/
def get_cutted_spectrum_in3D (exp_data : Cube) (low_e high_e e_offset e_linear : ℚ) :
    CutResult :=
  let n := ((exp_data.headD []).headD []).length
  let lowv := pyint ((low_e - e_offset) / e_linear)
  let highv := pyint ((high_e - e_offset) / e_linear)
  let x := ((List.range n).map (fun c => (c : ℤ))).filter
    (fun c => decide (lowv ≤ c) && decide (c ≤ highv))
  let data := exp_data.map (fun row => row.map (fun spec => pySlice spec lowv (highv + 1)))
  ⟨x, data, (lowv, highv)⟩

/-! ## `pyxrf.model.fit_spectrum`: per-pixel NNLS dispatch and controller -/

/-- Modelled from the spec: `fit_per_line_nnls` is imported from skbeam
(`skbeam.core.fitting.xrf_model`), whose source is not part of this
repository; spec §4.3/§4.4 describe it as executing the single-spectrum
NNLS strategy for every pixel of one row.  The single-spectrum solve
itself (snip background subtraction plus the active-set non-negative
least-squares solve, both external library code) is abstracted as the
function argument `pixelFit`, taking the pixel's spectrum, the regression
matrix and the `use_snip` flag. -/
def fit_per_line_nnls (pixelFit : Vec → Mat → Bool → Vec) (row_num : ℕ)
    (data : Mat) (matv : Mat) (use_snip : Bool) : Mat :=
  -- row_num is only logged by the source
  let _ := row_num
  data.map (fun spec => pixelFit spec matv use_snip)

/-- Embedding of `fit_pixel_multiprocess_nnls`: one task per cube row is
dispatched to the process pool (`pool.apply_async` for `n` in
`range(exp_data.shape[0])`) and the results are collected with `r.get()`
in submission order, so the collected list is the in-order map of
`fit_per_line_nnls` over the rows (spec §5: output ordering is independent
of completion order). -/
def fit_pixel_multiprocess_nnls (pixelFit : Vec → Mat → Bool → Vec)
    (exp_data : Cube) (matv : Mat) (use_snip : Bool) : Cube :=
  (List.range exp_data.length).map
    (fun n => fit_per_line_nnls pixelFit n (exp_data.getD n []) matv use_snip)

/-- The `e_select`/`matv` rewrite for `comp_elastic_combine=True`: the last
column is added into the second-to-last and dropped
(`matv = matv_old[:, :-1]; matv[:, -1] += matv_old[:, -1]`, per row). -/
def combineLastTwoCols (row : Vec) : Vec :=
  match row.reverse with
  | a :: b :: rest => rest.reverse ++ [b + a]
  | _ => row.dropLast

/-- Options of `single_pixel_fitting_controller` (`method` is modelled by
the boolean `method_nnls`, true for the default `method='nnls'`). -/
structure ControllerOpts where
  method_nnls : Bool
  pixel_bin : ℕ
  raise_bg : ℚ
  comp_elastic_combine : Bool
  linear_bg : Bool
  use_snip : Bool
  bin_energy : ℕ

/-- The parts of the controller's return value relevant here: the raw
per-pixel fit results (`calculation_info['results']`), the regression
matrix actually used (`calculation_info['regression_mat']`), the fit range,
the energy axis and the preprocessed cube (`calculation_info['exp_data']`). -/
structure ControllerOut where
  results : Cube
  regression_mat : Mat
  fit_range : ℤ × ℤ
  energy_axis : List ℤ
  exp_data : Cube

/-- Embedding of `single_pixel_fitting_controller`.

External collaborators are function arguments: `construct_matv` is the
matrix produced by skbeam's `construct_linear_model` from the cut channel
axis (the parameter map and element list are fixed inside it), `pixelFit`
is the single-spectrum NNLS solve (see `fit_per_line_nnls`) and `nonlinFit`
the per-pixel nonlinear path (`fit_pixel_multiprocess_nonlinear` composed
with `get_area_and_error_nonlinear_fit`, taking the preprocessed cube and
the matrix handed to it — which for the nonlinear branch the source
divides by `exp_data.shape[0]*exp_data.shape[1]` a second time). -/
def single_pixel_fitting_controller
    (construct_matv : List ℤ → Mat)
    (pixelFit : Vec → Mat → Bool → Vec)
    (nonlinFit : Cube → Mat → Cube)
    (input_data : Cube) (param : FitParam) (o : ControllerOpts) : ControllerOut :=
  -- cut data into proper range
  let cut := get_cutted_spectrum_in3D input_data
    param.energy_bound_low param.energy_bound_high param.e_offset param.e_linear
  -- calculate matrix for regression analysis
  let matv₀ := construct_matv cut.x
  let matv₁ := if o.comp_elastic_combine then matv₀.map combineLastTwoCols else matv₀
  let matv₂ := if o.linear_bg then matv₁.map (fun r => r ++ [1]) else matv₁
  -- add const background, so nnls works better for values above zero
  let exp₁ := if 0 < o.raise_bg then addConstCube cut.data o.raise_bg else cut.data
  -- bin data based on nearest pixels, only two options
  let exp₂ := if o.pixel_bin = 4 ∨ o.pixel_bin = 9
    then bin_data_spacial exp₁ (Nat.sqrt o.pixel_bin) else exp₁
  -- bin data based on energy spectrum
  let exp₃ := if o.bin_energy = 2 ∨ o.bin_energy = 3
    then conv_expdata_energy exp₂ o.bin_energy else exp₂
  -- make matrix smaller for single pixel fitting
  let npix : ℕ := exp₃.length * (exp₃.headD []).length
  let matv := matDivScalar matv₂ (npix : ℚ)
  let results := if o.method_nnls
    then fit_pixel_multiprocess_nnls pixelFit exp₃ matv o.use_snip
    else nonlinFit exp₃ (matDivScalar matv (npix : ℚ))
  ⟨results, matv, cut.fit_range, cut.x, exp₃⟩

/-- Stated from the spec (target of the refinement claim): the
single-spectrum NNLS fit of one pixel's spectrum computed directly against
a given regression matrix — one invocation of the single-spectrum solver,
with no binning and no dispatch around it. -/
def direct_single_spectrum_nnls (pixelFit : Vec → Mat → Bool → Vec)
    (spectrum : Vec) (matv : Mat) (use_snip : Bool) : Vec :=
  pixelFit spectrum matv use_snip

/-- The regression matrix of the controller just before the
`matv /= exp_data.shape[0]*exp_data.shape[1]` division: the matrix built
from the cut channel axis, after the optional `comp_elastic_combine` and
`linear_bg` rewrites. -/
def controller_matrix_before_division (construct_matv : List ℤ → Mat)
    (input_data : Cube) (param : FitParam) (comp_elastic_combine linear_bg : Bool) :
    Mat :=
  let cut := get_cutted_spectrum_in3D input_data
    param.energy_bound_low param.energy_bound_high param.e_offset param.e_linear
  let matv₀ := construct_matv cut.x
  let matv₁ := if comp_elastic_combine then matv₀.map combineLastTwoCols else matv₀
  if linear_bg then matv₁.map (fun r => r ++ [1]) else matv₁

/-! ## Heap model for the frame property of the controller

Python/numpy arrays are mutable objects; `exp_data += raise_bg` writes in
place into whatever array object `exp_data` names.  To state that the
controller never mutates the caller's cube, cube objects are given explicit
identities in a store: `np.array(...)` and `np.zeros(...)` allocate fresh
objects, in-place updates write to an existing identity.  Matrix objects
(`matv`) are created fresh by the model builder and can never alias the
input cube (different origin and dtype), so they stay value-modelled. -/

structure Heap where
  next : ℕ
  mem : ℕ → Cube

/-- Allocate a fresh cube object. -/
def Heap.alloc (h : Heap) (c : Cube) : Heap × ℕ :=
  (⟨h.next + 1, fun j => if j = h.next then c else h.mem j⟩, h.next)

/-- In-place write to an existing cube object. -/
def Heap.write (h : Heap) (i : ℕ) (c : Cube) : Heap :=
  ⟨h.next, fun j => if j = i then c else h.mem j⟩

/-- `single_pixel_fitting_controller` with the cube objects tracked in a
store.  The steps mirror the source:
`np.array(exp_data)` inside `get_cutted_spectrum_in3D` copies the input and
the energy-axis slice is a view of that copy (one fresh object holding the
cut data); `exp_data += raise_bg` writes that object in place;
`bin_data_spacial` fills a freshly allocated `np.zeros` array;
`conv_expdata_energy` copies with `np.array(data)` and writes the copy;
the fitting passes read only. -/
def single_pixel_fitting_controller_heap
    (construct_matv : List ℤ → Mat)
    (pixelFit : Vec → Mat → Bool → Vec)
    (nonlinFit : Cube → Mat → Cube)
    (h : Heap) (input_id : ℕ) (param : FitParam) (o : ControllerOpts) :
    Heap × ControllerOut :=
  let input_val := h.mem input_id
  let cut := get_cutted_spectrum_in3D input_val
    param.energy_bound_low param.energy_bound_high param.e_offset param.e_linear
  let a₁ := h.alloc cut.data
  let h₁ := a₁.1
  let cid₁ := a₁.2
  let matv₀ := construct_matv cut.x
  let matv₁ := if o.comp_elastic_combine then matv₀.map combineLastTwoCols else matv₀
  let matv₂ := if o.linear_bg then matv₁.map (fun r => r ++ [1]) else matv₁
  let s₂ := if 0 < o.raise_bg
    then (h₁.write cid₁ (addConstCube (h₁.mem cid₁) o.raise_bg), cid₁)
    else (h₁, cid₁)
  let h₂ := s₂.1
  let cid₂ := s₂.2
  let s₃ := if o.pixel_bin = 4 ∨ o.pixel_bin = 9
    then h₂.alloc (bin_data_spacial (h₂.mem cid₂) (Nat.sqrt o.pixel_bin))
    else (h₂, cid₂)
  let h₃ := s₃.1
  let cid₃ := s₃.2
  let s₄ := if o.bin_energy = 2 ∨ o.bin_energy = 3
    then h₃.alloc (conv_expdata_energy (h₃.mem cid₃) o.bin_energy)
    else (h₃, cid₃)
  let h₄ := s₄.1
  let cid₄ := s₄.2
  let exp₃ := h₄.mem cid₄
  let npix : ℕ := exp₃.length * (exp₃.headD []).length
  let matv := matDivScalar matv₂ (npix : ℚ)
  let results := if o.method_nnls
    then fit_pixel_multiprocess_nnls pixelFit exp₃ matv o.use_snip
    else nonlinFit exp₃ (matDivScalar matv (npix : ℚ))
  (h₄, ⟨results, matv, cut.fit_range, cut.x, exp₃⟩)

/-! ## `get_branching_ratio` and its physics-catalog collaborators -/

/-- Modelled from the spec: skbeam's `TRANSITIONS_LOOKUP` table (the
physics line catalog of §6 is external library data, not part of this
repository).  It maps a line-group name to the ordered list of transition
names in that group, the dominant transition first — for the K group the
four K transitions headed by `ka1`. -/
def TRANSITIONS_LOOKUP_K : List String := ["ka1", "ka2", "kb1", "kb2"]

/-- Modelled from the spec: per-transition emission cross-sections of Mg at
an incident energy of 12 keV, as returned by the external physics catalog
(`Element("Mg").cs(12.0)`).  The spec fixes only their qualitative shape —
nonnegative values with the dominant `ka1` positive (the Mg K lines are
activated at 12 keV); representative rationals of that shape are used. -/
def mg_cs_12 : String → ℚ := fun t =>
  if t = "ka1" then 2 else if t = "ka2" then 1 else if t = "kb1" then 1 else 0

/-- The `name, line = elemental_line.split('_')` unpacking of a
two-component line identifier such as `"Mg_K"`: the text before the first
underscore and the text after it (structural counterpart of Python's
`str.split`, which is a library primitive). -/
def splitUnderscore (s : String) : String × String :=
  let cs := s.toList
  (String.mk (cs.takeWhile (fun c => c ≠ '_')),
   String.mk ((cs.dropWhile (fun c => c ≠ '_')).drop 1))

/-- Python's `str.upper()` for ASCII strings (structural counterpart of
the library primitive). -/
def upperStr (s : String) : String :=
  String.mk (s.toList.map
    (fun c => if 'a' ≤ c ∧ c ≤ 'z' then Char.ofNat (c.toNat - 32) else c))

/-- Embedding of `get_branching_ratio`, parameterized by the external
catalog (`cs name energy transition`, modelling `Element(name).cs(energy)`)
and by the transition-line lookup table (`lookup line`, modelling
`TRANSITIONS_LOOKUP[line.upper()]`): the cross-section of the FIRST listed
transition divided by the sum over all listed transitions. -/
def get_branching_ratio (cs : String → ℚ → String → ℚ)
    (lookup : String → List String) (elemental_line : String) (energy : ℚ) : ℚ :=
  let parts := splitUnderscore elemental_line
  let name := parts.1
  let line := upperStr parts.2
  let transition_lines := lookup line
  let sum_v := (transition_lines.map (cs name energy)).sum
  cs name energy (transition_lines.headD "") / sum_v

/-- The modelled standard lookup table (only the K group is exercised by
the claim). -/
def lookupStd : String → List String := fun line =>
  if line = "K" then TRANSITIONS_LOOKUP_K else []

/-- The modelled catalog: Mg at 12 keV uses `mg_cs_12`; the claim touches
no other element/energy pair. -/
def csCatalog : String → ℚ → String → ℚ := fun name energy t =>
  if name = "Mg" ∧ energy = 12 then mg_cs_12 t else 0

/-- Every entry of a 2D array is nonnegative. -/
def MatNonneg (m : Mat) : Prop := ∀ r ∈ m, ∀ x ∈ r, 0 ≤ x

/-! # Theorems -/

/-! ## Supporting lemmas -/

lemma matSize_eq_of_shape {a b : Mat} (h : matShape a = matShape b) :
    matSize a = matSize b := by
  unfold matSize
  unfold matShape at h
  rw [h]

lemma countNonzero_eq_zero_iff (s : Mat) :
    countNonzero s = 0 ↔ ∀ r ∈ s, ∀ x ∈ r, x = 0 := by
  unfold countNonzero
  rw [List.sum_eq_zero_iff]
  constructor
  · intro h r hr x hx
    have hc := h (r.countP (fun x => decide (x ≠ 0)))
      (List.mem_map.mpr ⟨r, hr, rfl⟩)
    by_contra hne
    have : 0 < r.countP (fun x => decide (x ≠ 0)) :=
      List.countP_pos_iff.mpr ⟨x, hx, by simpa using hne⟩
    omega
  · intro h n hn
    rcases List.mem_map.mp hn with ⟨r, hr, rfl⟩
    rw [List.countP_eq_zero]
    intro x hx
    simpa using h r hr x hx

lemma countNonzero_lt_size {s : Mat} (hz : ∃ r ∈ s, ∃ x ∈ r, x = 0) :
    countNonzero s < matSize s := by
  induction s with
  | nil => simp at hz
  | cons r t ih =>
    have hle : ∀ u : Mat, countNonzero u ≤ matSize u := by
      intro u
      unfold countNonzero matSize
      induction u with
      | nil => simp
      | cons a b ihb =>
        simp only [List.map_cons, List.sum_cons]
        exact Nat.add_le_add (List.countP_le_length _) ihb
    unfold countNonzero matSize
    simp only [List.map_cons, List.sum_cons]
    rcases hz with ⟨r', hr', x, hx, hx0⟩
    rcases List.mem_cons.mp hr' with h' | h'
    · subst h'
      have hlt : r'.countP (fun x => decide (x ≠ 0)) < r'.length := by
        have hsplit := List.length_eq_countP_add_countP
          (p := fun x => decide (x ≠ 0)) (l := r')
        simp only [] at hsplit
        have hpos : 0 < r'.countP (fun a => decide ¬(decide (a ≠ 0) = true)) :=
          List.countP_pos_iff.mpr ⟨x, hx, by simp [hx0]⟩
        omega
      have := hle t
      unfold countNonzero matSize at this
      omega
    · have := ih ⟨r', h', x, hx, hx0⟩
      unfold countNonzero matSize at this
      have hr : r.countP (fun x => decide (x ≠ 0)) ≤ r.length :=
        List.countP_le_length _
      omega

/-! ## C5 -/

/-- C5: for every input where the scaler is `None`, has a shape different
from the data, or is all-zero — and likewise when the data name is in the
excluded-name list — `normalize_data_by_scaler` performs no normalization
and returns the data argument itself (the Python function returns the
identical object reference in these cases; in the embedding this is the
function returning its argument unchanged). -/
theorem C5_normalize_skip_returns_input (d : Mat) (scaler : Option Mat)
    (data_name : Option String) (nns : Option (List String))
    (h : scaler = none
        ∨ (∃ s, scaler = some s ∧ matShape d ≠ matShape s)
        ∨ (∃ s, scaler = some s ∧ countNonzero s = 0)
        ∨ nameExcluded data_name nns = true) :
    normalize_data_by_scaler (some d) scaler data_name nns = some d := by
  rcases h with h | ⟨s, rfl, hsh⟩ | ⟨s, rfl, hz⟩ | hex
  · subst h
    rfl
  · simp [normalize_data_by_scaler, hsh]
  · rcases eq_or_ne (matShape d) (matShape s) with hsh | hsh
    · simp [normalize_data_by_scaler, hsh, hz]
    · simp [normalize_data_by_scaler, hsh]
  · cases scaler with
    | none => rfl
    | some s =>
      rcases eq_or_ne (matShape d) (matShape s) with hsh | hsh
      · simp [normalize_data_by_scaler, hsh, hex]
      · simp [normalize_data_by_scaler, hsh]

/-- Witness for C5 at a concrete input: an all-zero scaler is skipped. -/
theorem C5_witness :
    normalize_data_by_scaler (some [[3, 4]]) (some [[0, 0]]) none none
      = some [[3, 4]] :=
  C5_normalize_skip_returns_input [[3, 4]] (some [[0, 0]]) none none
    (Or.inr (Or.inr (Or.inl ⟨[[0, 0]], rfl, by simp [countNonzero]⟩)))

/-! ## C6 -/

/-- C6: for every data array and same-shaped scaler with at least one
nonzero and at least one zero entry (and no name-based exclusion),
`normalize_data_by_scaler` divides the data elementwise by the modified
scaler in which every zero entry is replaced by the mean of the scaler's
nonzero entries, clamped away from zero (magnitude at least `1e-10`). -/
theorem C6_normalize_replaces_scaler_zeros (d s : Mat)
    (data_name : Option String) (nns : Option (List String))
    (hshape : matShape d = matShape s)
    (hnz : ∃ r ∈ s, ∃ x ∈ r, x ≠ 0)
    (hz : ∃ r ∈ s, ∃ x ∈ r, x = 0)
    (hex : nameExcluded data_name nns = false) :
    normalize_data_by_scaler (some d) (some s) data_name nns
      = some (matDiv d (replaceZeros s (clampMean (meanNonzero s)))) := by
  have hcnt : countNonzero s ≠ 0 := by
    intro h0
    rcases hnz with ⟨r, hr, x, hx, hxne⟩
    exact hxne ((countNonzero_eq_zero_iff s).mp h0 r hr x hx)
  have hsize : matSize d ≠ countNonzero s := by
    have := countNonzero_lt_size hz
    have hds := matSize_eq_of_shape hshape
    omega
  simp [normalize_data_by_scaler, hshape, hex, hcnt, hsize]

/-- Witness for C6 at a concrete input: scaler `[[2, 0]]` has nonzero mean
`2`, so the data is divided by `[[2, 2]]`. -/
theorem C6_witness :
    normalize_data_by_scaler (some [[1, 2]]) (some [[2, 0]]) none none
      = some (matDiv [[1, 2]] (replaceZeros [[2, 0]] (clampMean (meanNonzero [[2, 0]])))) :=
  C6_normalize_replaces_scaler_zeros [[1, 2]] [[2, 0]] none none
    (by simp [matShape])
    ⟨[2, 0], by simp, 2, by simp, by norm_num⟩
    ⟨[2, 0], by simp, 0, by simp, rfl⟩
    rfl

/-! ## C7 -/

/-- C7: every call to `fitting_admm` violating a precondition — `rate ≤ 0`,
`maxiter ≤ 0`, `epsilon ≤ 0`, or a first-axis length of `data` different
from the row count of the reference matrix — fails with a descriptive
assertion error before any iteration or matrix computation, producing no
partial result. -/
theorem C7_admm_precondition_failure (data ref_spectra : Mat) (rate : ℚ)
    (maxiter : ℤ) (epsilon : ℚ)
    (h : rate ≤ 0 ∨ maxiter ≤ 0 ∨ epsilon ≤ 0
        ∨ data.length ≠ ref_spectra.length) :
    ∃ msg, fitting_admm data ref_spectra rate maxiter epsilon
      = Except.error msg := by
  simp only [fitting_admm]
  split_ifs with h1 h2 h3 h4
  all_goals try exact ⟨_, rfl⟩
  refine ⟨"", ?_⟩
  rcases h with h | h | h | h
  · linarith
  · omega
  · linarith
  · exact h1 h

/-- Witness for C7 at a concrete input: `rate = 0` is rejected. -/
theorem C7_witness :
    ∃ msg, fitting_admm [[1]] [[1]] 0 1 1 = Except.error msg :=
  C7_admm_precondition_failure [[1]] [[1]] 0 1 1 (Or.inl le_rfl)

/-! ## C8 -/

lemma matMap_max_nonneg (m : Mat) : MatNonneg (matMap (fun v => max 0 v) m) := by
  intro r hr x hx
  rcases List.mem_map.mp hr with ⟨r₀, _, rfl⟩
  rcases List.mem_map.mp hx with ⟨v, _, rfl⟩
  exact le_max_left 0 v

lemma admmIter_w_nonneg (m1 z : Mat) (rate epsilon : ℚ) :
    ∀ (fuel i : ℕ) (w u : Mat), MatNonneg w →
      MatNonneg (admmIter m1 z rate epsilon fuel i w u).1 := by
  intro fuel
  induction fuel with
  | zero => intro i w u hw; simpa [admmIter] using hw
  | succ n ih =>
    intro i w u hw
    rw [admmIter]
    split_ifs
    · exact matMap_max_nonneg _
    · exact ih (i + 1) _ _ (matMap_max_nonneg _)

/-- C8: the constrained weight variable of `fitting_admm` is nonnegative in
every entry after every iteration of the ADMM loop (first conjunct: the
loop maps any nonnegatively-initialized state — and in particular every
intermediate clipped state — to a nonnegative final weight matrix, each
iteration producing its `w` by clipping at zero), and therefore the
returned weights array is nonnegative in every entry for every input
satisfying the preconditions (second conjunct). -/
theorem C8_admm_weights_nonneg :
    (∀ (m1 z : Mat) (rate epsilon : ℚ) (fuel i : ℕ) (w u : Mat),
        MatNonneg w → MatNonneg (admmIter m1 z rate epsilon fuel i w u).1)
    ∧ (∀ (data ref_spectra : Mat) (rate : ℚ) (maxiter : ℤ) (epsilon : ℚ)
        (out : AdmmOut), 0 < rate → 0 < maxiter → 0 < epsilon →
        data.length = ref_spectra.length →
        fitting_admm data ref_spectra rate maxiter epsilon = Except.ok out →
        MatNonneg out.w) := by
  constructor
  · exact fun m1 z rate epsilon fuel i w u hw =>
      admmIter_w_nonneg m1 z rate epsilon fuel i w u hw
  · intro data ref rate maxiter epsilon out hr hm he hlen hok
    have hones : MatNonneg (matConst ((ref.headD []).length)
        ((data.headD []).length) 1) := by
      intro r hr' x hx
      rcases List.eq_of_mem_replicate hr' with rfl
      rcases List.eq_of_mem_replicate hx with rfl
      norm_num
    simp only [fitting_admm, hlen, hr, hm, he, not_lt, ne_eq,
      not_true_eq_false, if_false] at hok
    obtain rfl := Except.ok.inj hok
    exact admmIter_w_nonneg _ _ _ _ _ _ _ _ hones

/-! ## C3 -/

/-- C3: evaluation of `fitting_admm` at the failing input
`data = [[2], [0]]`, `ref_spectra = [[1], [0]]`, `rate = 1`, `maxiter = 1`,
`epsilon = 1e-30`.  The preconditions hold, the call returns without
raising — but the returned convergence trace is EMPTY, not of length 1:
the source initializes `n_iter = 0` and assigns `n_iter = i + 1` only on
the early-convergence `break`, so when the single iteration does not meet
`conv < epsilon` (here `conv = 1/3`), the final `convergence[:n_iter]`
slice discards the recorded entry.  The diagnostic arrays were explicitly
preallocated with one slot per iteration (`np.zeros(shape=[maxiter])`), so
losing every recorded entry whenever the iteration cap is reached
contradicts the evident intent of recording per-iteration diagnostics. -/
theorem C3_admm_maxiter1_empty_trace :
    fitting_admm [[2], [0]] [[1], [0]] 1 1 (1 / 10 ^ 30)
      = Except.ok ⟨[[3/2]], [], []⟩ := by
  norm_num [fitting_admm, matT, matMul, matInv, elimStep, matZip, matScale,
    matMap, matConst, eyeScaled, dotVec, admmIter, convBreak, normSqM,
    List.range_succ]

/-- Witness for C8: a concrete converged run with nonnegative returned
weights. -/
theorem C8_witness : MatNonneg ([[1]] : Mat) :=
  C8_admm_weights_nonneg.2 [[1], [0]] [[1], [0]] 1 1 (1/2)
    ⟨[[1]], [0], [0]⟩ (by norm_num) (by norm_num) (by norm_num) rfl
    (by norm_num [fitting_admm, matT, matMul, matInv, elimStep, matZip,
      matScale, matMap, matConst, eyeScaled, dotVec, admmIter, convBreak,
      normSqM, List.range_succ])

/-! ## C9 -/

/-- C9: for every valid call to `grid_interpolate` whose coordinate arrays
have a single row or a single column (either dimension of length at most
one), the function returns the `data`, `xx` and `yy` arrays unchanged — no
interpolation is performed. -/
theorem C9_grid_interpolate_degenerate
    (griddata : List (ℚ × ℚ) → Vec → Mat → Mat → Mat)
    (data : Option Mat) (xx yy : Mat)
    (hdata : ∀ d ∈ data, matShape d = matShape xx)
    (hxy : matShape xx = matShape yy)
    (hdeg : (xx.headD []).length ≤ 1 ∨ xx.length ≤ 1) :
    grid_interpolate griddata data xx yy none none
      = Except.ok (data, xx, yy) := by
  have hmain : grid_interpolate_main griddata data xx yy none none
      = (data, xx, yy) := by
    unfold grid_interpolate_main
    rw [if_pos hdeg]
  cases data with
  | none =>
    simp only [grid_interpolate]
    rw [if_neg (by simp), if_neg (by simp [hxy]), if_neg (by simp)]
    rw [hmain]
  | some d =>
    have hd : matShape d = matShape xx := hdata d rfl
    simp only [grid_interpolate]
    rw [if_neg (by simp [hd]), if_neg (by simp [hxy]), if_neg (by simp)]
    rw [hmain]

/-- Witness for C9: a single-row scan is returned unchanged. -/
theorem C9_witness :
    grid_interpolate (fun _ _ _ _ => []) (some [[1, 2, 3]]) [[0, 1, 2]]
      [[5, 5, 5]] none none
      = Except.ok (some [[1, 2, 3]], [[0, 1, 2]], [[5, 5, 5]]) :=
  C9_grid_interpolate_degenerate (fun _ _ _ _ => []) (some [[1, 2, 3]])
    [[0, 1, 2]] [[5, 5, 5]]
    (by intro d hd; cases hd; rfl)
    rfl
    (Or.inr (by norm_num))

/-! ## C4 -/

/-- C4, counterexample: `get_branching_ratio` divides the cross-section of
the FIRST transition listed in the lookup table by the order-invariant
sum, so its value is NOT invariant under reordering of the lookup table:
swapping the first two K transitions changes the result (with the
spec-modelled Mg catalog, from `2/4` to `1/4`). -/
theorem C4_counterexample_reorder_changes_value :
    (["ka2", "ka1", "kb1", "kb2"] : List String).Perm TRANSITIONS_LOOKUP_K
    ∧ get_branching_ratio csCatalog
        (fun line => if line = "K" then ["ka2", "ka1", "kb1", "kb2"] else [])
        "Mg_K" 12
      ≠ get_branching_ratio csCatalog lookupStd "Mg_K" 12 := by
  constructor
  · exact List.Perm.swap _ _ _
  · norm_num +decide [get_branching_ratio, csCatalog, mg_cs_12, lookupStd,
      TRANSITIONS_LOOKUP_K,
      show splitUnderscore "Mg_K" = ("Mg", "K") from rfl,
      show upperStr "K" = "K" from rfl]

/-- C4, amended: `get_branching_ratio("Mg_K", 12.0)` returns a value in
`(0, 1]`, and the returned value is unchanged under any reordering of the
transition-line lookup table that keeps the dominant transition (`ka1`)
first — only the denominator sum is invariant under arbitrary reorderings,
the numerator is the first listed entry. -/
theorem C4_amended_branching_value :
    (0 < get_branching_ratio csCatalog lookupStd "Mg_K" 12
      ∧ get_branching_ratio csCatalog lookupStd "Mg_K" 12 ≤ 1)
    ∧ ∀ l' : List String, l'.Perm TRANSITIONS_LOOKUP_K → l'.headD "" = "ka1" →
        get_branching_ratio csCatalog
          (fun line => if line = "K" then l' else []) "Mg_K" 12
        = get_branching_ratio csCatalog lookupStd "Mg_K" 12 := by
  constructor
  · constructor <;>
      norm_num +decide [get_branching_ratio, csCatalog, mg_cs_12, lookupStd,
        TRANSITIONS_LOOKUP_K,
        show splitUnderscore "Mg_K" = ("Mg", "K") from rfl,
        show upperStr "K" = "K" from rfl]
  · intro l' hperm hhead
    unfold get_branching_ratio lookupStd
    simp only [show splitUnderscore "Mg_K" = ("Mg", "K") from rfl,
      show upperStr "K" = "K" from rfl, if_pos]
    rw [hhead]
    congr 1
    exact List.Perm.sum_eq (hperm.map (csCatalog "Mg" 12))

/-- Witness for C4 (amended part): a concrete tail reordering keeping
`ka1` first leaves the value unchanged. -/
theorem C4_witness :
    get_branching_ratio csCatalog
      (fun line => if line = "K" then ["ka1", "kb1", "ka2", "kb2"] else [])
      "Mg_K" 12
    = get_branching_ratio csCatalog lookupStd "Mg_K" 12 :=
  C4_amended_branching_value.2 ["ka1", "kb1", "ka2", "kb2"] (by decide) rfl

/-! ## List indexing and shape lemmas for the controller claims -/

lemma getD_map_lt {α β : Type} (f : α → β) (l : List α) (i : ℕ) (d : α)
    (d' : β) (h : i < l.length) : (l.map f).getD i d' = f (l.getD i d) := by
  rw [List.getD_eq_getElem?_getD, List.getD_eq_getElem?_getD,
    List.getElem?_map, List.getElem?_eq_getElem h]
  rfl

lemma getD_range_lt (n i : ℕ) (h : i < n) : (List.range n).getD i 0 = i := by
  rw [List.getD_eq_getElem?_getD, List.getElem?_eq_getElem (by simpa using h)]
  simp

/-- Number of pixel columns in row 0 of a cube (`shape[1]`). -/
lemma cols_map_map (g : Vec → Vec) (c : Cube) :
    ((c.map (fun row => row.map g)).headD []).length = (c.headD []).length := by
  cases c <;> simp

lemma cut_data_length (input : Cube) (l h eo el : ℚ) :
    (get_cutted_spectrum_in3D input l h eo el).data.length = input.length := by
  simp [get_cutted_spectrum_in3D]

lemma cut_data_row (input : Cube) (l h eo el : ℚ) (i : ℕ) (hi : i < input.length) :
    (get_cutted_spectrum_in3D input l h eo el).data.getD i []
      = (input.getD i []).map (fun spec => pySlice spec
          (pyint ((l - eo) / el)) (pyint ((h - eo) / el) + 1)) := by
  simp only [get_cutted_spectrum_in3D]
  exact getD_map_lt _ input i [] [] hi

lemma fit_pixel_multiprocess_row (pf : Vec → Mat → Bool → Vec)
    (exp_data : Cube) (matv : Mat) (us : Bool) (i : ℕ)
    (hi : i < exp_data.length) :
    (fit_pixel_multiprocess_nnls pf exp_data matv us).getD i []
      = fit_per_line_nnls pf i (exp_data.getD i []) matv us := by
  unfold fit_pixel_multiprocess_nnls
  rw [getD_map_lt _ (List.range exp_data.length) i 0 [] (by simpa using hi),
    getD_range_lt _ i hi]

lemma fit_per_line_pixel (pf : Vec → Mat → Bool → Vec) (rn : ℕ) (row : Mat)
    (matv : Mat) (us : Bool) (j : ℕ) (hj : j < row.length) :
    (fit_per_line_nnls pf rn row matv us).getD j [] = pf (row.getD j []) matv us := by
  unfold fit_per_line_nnls
  exact getD_map_lt _ row j [] [] hj

/-! ## C1 -/

/-- C1: with `method='nnls'`, `pixel_bin=0`, `bin_energy=1` (and no raised
background), the pixel-fitting controller produces for every pixel `(i, j)`
exactly the single-spectrum NNLS fit of that pixel's (energy-window cut)
spectrum computed directly against the same regression matrix the
controller uses — the disabled binning steps and the per-row parallel
dispatch do not alter per-pixel results.  Quantified over the external
matrix builder, the external single-spectrum solver, the parameter map and
the remaining option flags. -/
theorem C1_controller_refines_direct_fit
    (cm : List ℤ → Mat) (pf : Vec → Mat → Bool → Vec) (nf : Cube → Mat → Cube)
    (input : Cube) (p : FitParam) (use_snip comp lin : Bool) (i j : ℕ)
    (hi : i < input.length) (hj : j < (input.getD i []).length) :
    ((single_pixel_fitting_controller cm pf nf input p
        ⟨true, 0, 0, comp, lin, use_snip, 1⟩).results.getD i []).getD j []
      = direct_single_spectrum_nnls pf
          (((get_cutted_spectrum_in3D input p.energy_bound_low
              p.energy_bound_high p.e_offset p.e_linear).data.getD i []).getD j [])
          (single_pixel_fitting_controller cm pf nf input p
            ⟨true, 0, 0, comp, lin, use_snip, 1⟩).regression_mat
          use_snip := by
  set cut := get_cutted_spectrum_in3D input p.energy_bound_low
    p.energy_bound_high p.e_offset p.e_linear with hcut
  have hclen : cut.data.length = input.length := cut_data_length _ _ _ _ _
  have hrowlen : (cut.data.getD i []).length = (input.getD i []).length := by
    rw [cut_data_row input _ _ _ _ i hi, List.length_map]
  have hres : (single_pixel_fitting_controller cm pf nf input p
        ⟨true, 0, 0, comp, lin, use_snip, 1⟩).results
      = fit_pixel_multiprocess_nnls pf cut.data
          ((single_pixel_fitting_controller cm pf nf input p
            ⟨true, 0, 0, comp, lin, use_snip, 1⟩).regression_mat) use_snip := by
    simp only [single_pixel_fitting_controller, ← hcut]
    norm_num
  rw [hres, fit_pixel_multiprocess_row pf cut.data _ use_snip i
      (by rw [hclen]; exact hi),
    fit_per_line_pixel pf i (cut.data.getD i []) _ use_snip j
      (by rw [hrowlen]; exact hj)]
  rfl

/-- Witness for C1 at a concrete input: a 1×1×2 cube, identity solver. -/
theorem C1_witness :
    ((single_pixel_fitting_controller (fun _ => [[1]]) (fun s _ _ => s)
        (fun c _ => c) [[[1, 2]]] ⟨0, 1, 0, 1⟩
        ⟨true, 0, 0, false, false, true, 1⟩).results.getD 0 []).getD 0 []
      = direct_single_spectrum_nnls (fun s _ _ => s)
          (((get_cutted_spectrum_in3D [[[1, 2]]] 0 1 0 1).data.getD 0 []).getD 0 [])
          (single_pixel_fitting_controller (fun _ => [[1]]) (fun s _ _ => s)
            (fun c _ => c) [[[1, 2]]] ⟨0, 1, 0, 1⟩
            ⟨true, 0, 0, false, false, true, 1⟩).regression_mat
          true :=
  C1_controller_refines_direct_fit (fun _ => [[1]]) (fun s _ _ => s)
    (fun c _ => c) [[[1, 2]]] ⟨0, 1, 0, 1⟩ true false false 0 0
    (by norm_num) (by simp)

/-! ## C2 -/

lemma len_addConstCube (d : Cube) (v : ℚ) : (addConstCube d v).length = d.length :=
  List.length_map _ _

lemma cols_addConstCube (d : Cube) (v : ℚ) :
    ((addConstCube d v).headD []).length = (d.headD []).length :=
  cols_map_map _ d

lemma len_conv_expdata (d : Cube) (w : ℕ) :
    (conv_expdata_energy d w).length = d.length :=
  List.length_map _ _

lemma cols_conv_expdata (d : Cube) (w : ℕ) :
    ((conv_expdata_energy d w).headD []).length = (d.headD []).length :=
  cols_map_map _ d

lemma len_cut_data (input : Cube) (l h eo el : ℚ) :
    ((get_cutted_spectrum_in3D input l h eo el).data.headD []).length
      = (input.headD []).length := by
  simp only [get_cutted_spectrum_in3D]
  exact cols_map_map _ input

lemma bin_shape_product (d : Cube) (n : ℕ) (hn : 1 < n) :
    (bin_data_spacial d n).length * ((bin_data_spacial d n).headD []).length
      = (d.length / n) * ((d.headD []).length / n) := by
  have hne : ¬ (n ≤ 1) := by omega
  simp only [bin_data_spacial, hne, if_false]
  rcases Nat.eq_zero_or_pos (d.length / n) with h0 | h0
  · simp [h0]
  · obtain ⟨m, hm⟩ : ∃ m, d.length / n = m + 1 :=
      ⟨_, (Nat.succ_pred_eq_of_pos h0).symm⟩
    rw [hm, List.range_succ_eq_map]
    simp

/-- C2, counterexample: at a 6×4×1 input cube with `pixel_bin=4`
(2×2 blocks, block pixel count `n² = 4`), the regression matrix the
controller uses is NOT the pre-division matrix divided by `n² = 4`: the
source divides by `exp_data.shape[0]*exp_data.shape[1]` — the total pixel
count of the binned data, here `3·2 = 6` (so `[[12]]` becomes `[[2]]`, not
`[[3]]`). -/
theorem C2_counterexample_divisor_not_block_count :
    (single_pixel_fitting_controller (fun _ => [[12]]) (fun _ _ _ => [])
        (fun c _ => c)
        [[[0], [0], [0], [0]], [[0], [0], [0], [0]], [[0], [0], [0], [0]],
         [[0], [0], [0], [0]], [[0], [0], [0], [0]], [[0], [0], [0], [0]]]
        ⟨0, 1, 0, 0⟩ ⟨true, 4, 0, false, false, true, 1⟩).regression_mat
      ≠ matDivScalar (controller_matrix_before_division (fun _ => [[12]])
          [[[0], [0], [0], [0]], [[0], [0], [0], [0]], [[0], [0], [0], [0]],
           [[0], [0], [0], [0]], [[0], [0], [0], [0]], [[0], [0], [0], [0]]]
          ⟨0, 1, 0, 0⟩ false false) ((2 : ℚ) ^ 2) := by
  norm_num [single_pixel_fitting_controller, controller_matrix_before_division,
    get_cutted_spectrum_in3D, pyint, pySlice, bin_data_spacial, blockSum,
    vecAdd, matDivScalar, matMap, List.range_succ]

/-- C2, amended: when spatial pixel binning over `n×n` blocks is selected
(`pixel_bin ∈ {4, 9}`, `n = sqrt(pixel_bin)`), the regression matrix used
for per-pixel fitting is the built matrix divided by the TOTAL pixel count
of the binned data, `(rows/n)·(cols/n)` (truncating division) — not by the
block pixel count `n²`. -/
theorem C2_amended_matrix_divided_by_binned_pixel_count
    (cm : List ℤ → Mat) (pf : Vec → Mat → Bool → Vec) (nf : Cube → Mat → Cube)
    (input : Cube) (p : FitParam) (meth comp lin snip : Bool) (rb : ℚ)
    (be pb : ℕ) (hpb : pb = 4 ∨ pb = 9) :
    (single_pixel_fitting_controller cm pf nf input p
        ⟨meth, pb, rb, comp, lin, snip, be⟩).regression_mat
      = matDivScalar (controller_matrix_before_division cm input p comp lin)
          ((((input.length / Nat.sqrt pb)
              * ((input.headD []).length / Nat.sqrt pb) : ℕ) : ℚ)) := by
  have hn : 1 < Nat.sqrt pb := by rcases hpb with rfl | rfl <;> norm_num
  simp only [single_pixel_fitting_controller, controller_matrix_before_division]
  rw [if_pos hpb]
  congr 2
  split_ifs with h1 h2 h2
  · rw [len_conv_expdata, cols_conv_expdata, bin_shape_product _ _ hn,
      len_addConstCube, cols_addConstCube, cut_data_length, len_cut_data]
  · rw [len_conv_expdata, cols_conv_expdata, bin_shape_product _ _ hn,
      cut_data_length, len_cut_data]
  · rw [bin_shape_product _ _ hn, len_addConstCube, cols_addConstCube,
      cut_data_length, len_cut_data]
  · rw [bin_shape_product _ _ hn, cut_data_length, len_cut_data]

/-- Witness for C2 (amended): the 6×4×1 cube of the counterexample, where
the divisor is `(6/2)·(4/2) = 6`. -/
theorem C2_witness :
    (single_pixel_fitting_controller (fun _ => [[12]]) (fun _ _ _ => [])
        (fun c _ => c)
        [[[0], [0], [0], [0]], [[0], [0], [0], [0]], [[0], [0], [0], [0]],
         [[0], [0], [0], [0]], [[0], [0], [0], [0]], [[0], [0], [0], [0]]]
        ⟨0, 1, 0, 0⟩ ⟨true, 4, 0, false, false, true, 1⟩).regression_mat
      = matDivScalar (controller_matrix_before_division (fun _ => [[12]])
          [[[0], [0], [0], [0]], [[0], [0], [0], [0]], [[0], [0], [0], [0]],
           [[0], [0], [0], [0]], [[0], [0], [0], [0]], [[0], [0], [0], [0]]]
          ⟨0, 1, 0, 0⟩ false false)
          ((((6 / Nat.sqrt 4) * (4 / Nat.sqrt 4) : ℕ) : ℚ)) :=
  C2_amended_matrix_divided_by_binned_pixel_count (fun _ => [[12]])
    (fun _ _ _ => []) (fun c _ => c) _ ⟨0, 1, 0, 0⟩ true false false true 0 1 4
    (Or.inl rfl)

/-! ## C10 -/

/-- C10: the controller never mutates the caller's cube.  First conjunct:
after the call, the store still holds the original value at the input
cube's identity, for every store, every identity and every option
combination — the energy-window cut copies the cube, so the in-place
`raise_bg` addition and the binning/convolution steps act only on freshly
allocated objects.  Second conjunct: the heap-tracked controller computes
exactly the value-level controller's result on the input's value. -/
theorem C10_controller_never_mutates_input
    (cm : List ℤ → Mat) (pf : Vec → Mat → Bool → Vec) (nf : Cube → Mat → Cube)
    (h : Heap) (input_id : ℕ) (p : FitParam) (o : ControllerOpts)
    (hid : input_id < h.next) :
    ((single_pixel_fitting_controller_heap cm pf nf h input_id p o).1).mem input_id
        = h.mem input_id
    ∧ (single_pixel_fitting_controller_heap cm pf nf h input_id p o).2
        = single_pixel_fitting_controller cm pf nf (h.mem input_id) p o := by
  have e1 : input_id ≠ h.next := by omega
  have e2 : input_id ≠ h.next + 1 := by omega
  have e3 : input_id ≠ h.next + 2 := by omega
  by_cases h2 : 0 < o.raise_bg <;>
    by_cases h3 : o.pixel_bin = 4 ∨ o.pixel_bin = 9 <;>
    by_cases h4 : o.bin_energy = 2 ∨ o.bin_energy = 3 <;>
    refine ⟨?_, ?_⟩ <;>
    simp only [single_pixel_fitting_controller_heap,
      single_pixel_fitting_controller, h2, h3, h4, if_true, if_false,
      Heap.alloc, Heap.write, e1, e2, e3, ite_true, ite_false, if_neg,
      not_false_eq_true, ite_eq_right_iff, reduceIte]

/-- Witness for C10: a one-object store holding a 1×1×1 cube is unchanged
at the input identity. -/
theorem C10_witness :
    ((single_pixel_fitting_controller_heap (fun _ => [[1]]) (fun s _ _ => s)
        (fun c _ => c) ⟨1, fun _ => [[[5]]]⟩ 0 ⟨0, 1, 0, 0⟩
        ⟨true, 4, 1, false, false, true, 2⟩).1).mem 0
        = Heap.mem ⟨1, fun _ => [[[5]]]⟩ 0
    ∧ (single_pixel_fitting_controller_heap (fun _ => [[1]]) (fun s _ _ => s)
        (fun c _ => c) ⟨1, fun _ => [[[5]]]⟩ 0 ⟨0, 1, 0, 0⟩
        ⟨true, 4, 1, false, false, true, 2⟩).2
        = single_pixel_fitting_controller (fun _ => [[1]]) (fun s _ _ => s)
            (fun c _ => c) (Heap.mem ⟨1, fun _ => [[[5]]]⟩ 0) ⟨0, 1, 0, 0⟩
            ⟨true, 4, 1, false, false, true, 2⟩ :=
  C10_controller_never_mutates_input (fun _ => [[1]]) (fun s _ _ => s)
    (fun c _ => c) ⟨1, fun _ => [[[5]]]⟩ 0 ⟨0, 1, 0, 0⟩
    ⟨true, 4, 1, false, false, true, 2⟩ (by norm_num)

end PyXRF
